import Mathlib

/-!
Verification of the FraiseQL Relay PostgreSQL extension
(src/fraiseql-relay-extension/src/fraiseql_relay.c) against its
natural-language specification.

Strings are modelled as byte lists (`Str := List Nat`); a PostgreSQL
`text` value is such a list with bytes in 1..255.  C-string truncation at
the first NUL byte (`text_to_cstring` / `%s` formatting / `strchr`) is
modelled by `cString`.  The storage engine builtins that the C code calls
through `DirectFunctionCall1` — `encode`/`decode` (base64) and
`uuid_in`/`uuid_out` — are modelled as pure byte-list functions following
their documented behaviour (standard base64 alphabet with `=` padding;
canonical 8-4-4-4-12 lowercase hex UUID text with PostgreSQL's lenient
hyphen/brace acceptance on input).  SPI reports a statement failure by
raising an error, never through the return code alone; the refresh model
follows that semantics: environmental failures of the registry query and
the view creation abort the call, and so does the guaranteed failure of
`CREATE INDEX` on the plain view `core.v_nodes`, which no PG_TRY catches.
-/

/-- Byte strings: the model of C strings / PostgreSQL text values. -/
abbrev Str := List Nat

/-- C-string view of a byte buffer: everything before the first NUL byte.
Models `text_to_cstring`, `%s` formatting and `strchr` stopping at NUL. -/
def cString (s : Str) : Str := s.takeWhile (fun c => c != 0)

/-- Error kinds of the specification (section 7). -/
inductive ErrorKind where
  | InvalidFormat
  | InvalidTypeName
  | NotFound
  | UpstreamUnavailable
  | SchemaMismatch
deriving DecidableEq

/-- A `pg_uuid_t`: exactly 16 bytes. -/
abbrev UUID := { l : List (Fin 256) // l.length = 16 }

/-- Hex digit character for a nibble (lowercase, as `uuid_out` prints). -/
def hexChar (n : Nat) : Nat := if n < 10 then 48 + n else 87 + n

/-- Value of a hex digit character (accepts lowercase and uppercase, as
`isxdigit`/`strtoul` in PostgreSQL's `string_to_uuid`). -/
def hexVal (c : Nat) : Option (Fin 16) :=
  if h1 : 48 ≤ c ∧ c ≤ 57 then some ⟨c - 48, by omega⟩
  else if h2 : 97 ≤ c ∧ c ≤ 102 then some ⟨c - 87, by omega⟩
  else if h3 : 65 ≤ c ∧ c ≤ 70 then some ⟨c - 55, by omega⟩
  else none

/-- The byte-printing loop of PostgreSQL's `uuid_out`: a hyphen before
bytes 4, 6, 8 and 10, then two lowercase hex digits per byte. -/
def printFrom : Nat → List (Fin 256) → Str
  | _, [] => []
  | i, b :: bs =>
      (if i = 4 ∨ i = 6 ∨ i = 8 ∨ i = 10 then [45] else []) ++
        (hexChar (b.val / 16) :: hexChar (b.val % 16) :: printFrom (i + 1) bs)

/-- Canonical UUID text (`uuid_out`): 8-4-4-4-12 lowercase hex. -/
def uuid_out (u : UUID) : Str := printFrom 0 u.val

/-- After consuming the byte at index `i`, `string_to_uuid` skips a single
hyphen when `i` is odd and below 15 and a hyphen is next. -/
def skipHyphen (i : Nat) (s : Str) : Str :=
  if i % 2 = 1 ∧ i < 15 ∧ s.head? = some 45 then s.tail else s

/-- The byte-parsing loop of PostgreSQL's `string_to_uuid`: consumes `n`
bytes (two hex digits each) starting at byte index `i`; after a byte at an
odd index below 15 a single hyphen may follow and is skipped. -/
def parseAux : Nat → Nat → Str → Option (List (Fin 256) × Str)
  | 0, _, s => some ([], s)
  | n + 1, i, c1 :: c2 :: s =>
      match hexVal c1, hexVal c2 with
      | some hi, some lo =>
          (parseAux n (i + 1) (skipHyphen i s)).map
            (fun p => (⟨16 * hi.val + lo.val, by
                have := hi.isLt; have := lo.isLt; omega⟩ :: p.1, p.2))
      | _, _ => none
  | _ + 1, _, _ => none

/-- Tail of `string_to_uuid`: after the 16 bytes the input must end
(with a closing brace first when it opened with one). -/
def finishParse (expectBrace : Bool) (body : Str) : Option UUID :=
  match parseAux 16 0 body with
  | some (bs, rest) =>
      if h : bs.length = 16 ∧ rest = (if expectBrace then [125] else []) then
        some ⟨bs, h.1⟩
      else none
  | none => none

/-- PostgreSQL's `string_to_uuid` (the body of `uuid_in`): optional braces,
16 hex-encoded bytes with hyphens permitted after odd byte indices. -/
def string_to_uuid (s : Str) : Option UUID :=
  if s.head? = some 123 then finishParse true s.tail else finishParse false s

/-- Standard base64 alphabet character for a sextet value. -/
def sextetChar (v : Nat) : Nat :=
  if v < 26 then 65 + v
  else if v < 52 then 71 + v
  else if v < 62 then v - 4
  else if v = 62 then 43 else 47

/-- Value of a base64 alphabet character. -/
def b64val (ch : Nat) : Option Nat :=
  if 65 ≤ ch ∧ ch ≤ 90 then some (ch - 65)
  else if 97 ≤ ch ∧ ch ≤ 122 then some (ch - 71)
  else if 48 ≤ ch ∧ ch ≤ 57 then some (ch + 4)
  else if ch = 43 then some 62
  else if ch = 47 then some 63
  else none

/-- Standard base64 encoding of a byte sequence (the reversible transform
of the global ID wire format; `'='` padding, standard alphabet). -/
def b64encode : List Nat → Str
  | [] => []
  | [b0] => [sextetChar (b0 / 4), sextetChar (b0 % 4 * 16), 61, 61]
  | [b0, b1] =>
      [sextetChar (b0 / 4), sextetChar (b0 % 4 * 16 + b1 / 16),
       sextetChar (b1 % 16 * 4), 61]
  | b0 :: b1 :: b2 :: rest =>
      sextetChar (b0 / 4) :: sextetChar (b0 % 4 * 16 + b1 / 16) ::
        sextetChar (b1 % 16 * 4 + b2 / 64) :: sextetChar (b2 % 64) ::
          b64encode rest

/-- Standard base64 decoding; `none` on any input that is not valid
base64 (wrong length, a character outside the alphabet, or data after
padding). -/
def b64decode : Str → Option (List Nat)
  | [] => some []
  | c0 :: c1 :: c2 :: c3 :: rest =>
      match b64val c0, b64val c1 with
      | some v0, some v1 =>
          if c2 = 61 then
            if c3 = 61 ∧ rest = [] then some [v0 * 4 + v1 / 16] else none
          else
            match b64val c2 with
            | some v2 =>
                if c3 = 61 then
                  if rest = [] then
                    some [v0 * 4 + v1 / 16, v1 % 16 * 16 + v2 / 4]
                  else none
                else
                  match b64val c3 with
                  | some v3 =>
                      (b64decode rest).map
                        (fun bs => (v0 * 4 + v1 / 16) ::
                          (v1 % 16 * 16 + v2 / 4) :: (v2 % 4 * 64 + v3) :: bs)
                  | none => none
            | none => none
      | _, _ => none
  | _ => none

/-- `fraiseql_encode_global_id`: NULL in, NULL out; otherwise base64 of
`typename ++ ":" ++ uuid_out localId`.  The C function performs no
validation of the type name. -/
def fraiseql_encode_global_id : Option Str → Option UUID →
    Except ErrorKind (Option Str)
  | none, _ => .ok none
  | _, none => .ok none
  | some t, some u => .ok (some (b64encode (cString t ++ 58 :: uuid_out u)))

/-- Body of `fraiseql_decode_global_id` for a non-NULL argument: base64
decode, find the first colon with `strchr`, parse the remainder as a UUID.
All three failure paths raise a parameter-value error, modelled as the
spec's `InvalidFormat` kind. -/
def decodeGlobalIdBody (g : Str) : Except ErrorKind (Str × UUID) :=
  match b64decode (cString g) with
  | none => .error .InvalidFormat
  | some decoded =>
      match (cString decoded).dropWhile (fun c => c != 58) with
      | [] => .error .InvalidFormat
      | _ :: uuidStr =>
          match string_to_uuid uuidStr with
          | none => .error .InvalidFormat
          | some u => .ok ((cString decoded).takeWhile (fun c => c != 58), u)

/-- `fraiseql_decode_global_id`: NULL in, NULL out; otherwise decode. -/
def fraiseql_decode_global_id : Option Str → Except ErrorKind (Option (Str × UUID))
  | none => .ok none
  | some g => (decodeGlobalIdBody g).map some

/-- The all-zero UUID `00000000-0000-0000-0000-000000000000`. -/
def uuidZero : UUID :=
  ⟨List.replicate 16 ⟨0, by omega⟩, List.length_replicate 16 _⟩

/-! ## Registry, unified view and resolvers -/

/-- Opaque structured payload (a jsonb value), kept abstract as bytes. -/
abbrev Json := Str

/-- One row of `core.tb_entity_registry` as the refresh query reads it:
`soft_delete_column`, `tv_table` and `v_table` are nullable there. -/
structure RegistryRow where
  entity_name : Str
  graphql_type : Str
  pk_column : Str
  tv_table : Option Str
  v_table : Option Str
  source_table : Str
  soft_delete_column : Option Str

/-- One unfolded descriptor, i.e. one row of the refresh query's result:
`COALESCE(tv_table, v_table)` as the data table and
`COALESCE(soft_delete_column, 'deleted_at')` as the delete column. -/
structure EntityDesc where
  entity_name : Str
  graphql_type : Str
  pk_column : Str
  data_table : Str
  source_table : Str
  delete_col : Str
deriving DecidableEq

/-- The fixed sentinel soft-delete column name, the bytes of
the string deleted_at. -/
def deletedAtStr : Str := [100, 101, 108, 101, 116, 101, 100, 95, 97, 116]

/-- Registry read ordering: `ORDER BY entity_name` (bytewise text order). -/
def descLe (a b : EntityDesc) : Prop := a.entity_name ≤ b.entity_name

instance : DecidableRel descLe := fun a b =>
  inferInstanceAs (Decidable (a.entity_name ≤ b.entity_name))

/-- Descriptor built from a registry row, applying both COALESCE defaults
of the refresh query. -/
def mkDesc (r : RegistryRow) : EntityDesc :=
  { entity_name := r.entity_name
    graphql_type := r.graphql_type
    pk_column := r.pk_column
    data_table := match r.tv_table with
      | some t => t
      | none => r.v_table.getD []
    source_table := r.source_table
    delete_col := r.soft_delete_column.getD deletedAtStr }

/-- The registry query of `fraiseql_refresh_nodes_view_fast`:
`WHERE v_table IS NOT NULL ORDER BY entity_name`, with the COALESCEd
columns of `mkDesc`. -/
def registryRead (reg : List RegistryRow) : List EntityDesc :=
  List.insertionSort descLe ((reg.filter (fun r => r.v_table.isSome)).map mkDesc)

/-- The synthesized definition of `core.v_nodes`: either the zero-entity
sentinel (`SELECT NULL::... WHERE FALSE`) or a `UNION ALL` of one
projection per descriptor. -/
inductive ViewDef where
  | empty
  | unionAll (descs : List EntityDesc)
deriving DecidableEq

/-- A row of a backing collection (`data_table`).  `pkOf` looks up a
uuid-typed column by name (`none` models SQL NULL), `isNull` is the
`<col> IS NULL` test, and `data`, `created_at`, `updated_at` are the fixed
projected columns. -/
structure SrcRow where
  pkOf : Str → Option UUID
  isNull : Str → Bool
  data : Option Json
  created_at : Nat
  updated_at : Nat

/-- The storage engine's tables: a table name yields its rows. -/
abbrev Database := Str → List SrcRow

/-- One logical row of the unified `core.v_nodes` view. -/
structure ViewRow where
  id : Option UUID
  typename : Str
  entity_name : Str
  source_table : Str
  data : Option Json
  created_at : Nat
  updated_at : Nat

/-- The projection one descriptor contributes:
`SELECT pk as id, 'type' as __typename, 'entity' as entity_name,
'src' as source_table, data, created_at, updated_at`. -/
def projectRow (d : EntityDesc) (r : SrcRow) : ViewRow :=
  { id := r.pkOf d.pk_column
    typename := d.graphql_type
    entity_name := d.entity_name
    source_table := d.source_table
    data := r.data
    created_at := r.created_at
    updated_at := r.updated_at }

/-- Rows of the `UNION ALL` branch: for each descriptor in order, the
non-soft-deleted rows (`WHERE delete_col IS NULL`) of its data table,
projected. -/
def evalSpecs (db : Database) : List EntityDesc → List ViewRow
  | [] => []
  | d :: ds =>
      ((db d.data_table).filter (fun r => r.isNull d.delete_col)).map (projectRow d)
        ++ evalSpecs db ds

/-- Rows of the synthesized view over a database snapshot. -/
def evalViewDef (vd : ViewDef) (db : Database) : List ViewRow :=
  match vd with
  | .empty => []
  | .unionAll ds => evalSpecs db ds

/-- A value inside a result tuple slot. -/
inductive Datum where
  | text (s : Str)
  | jsonb (j : Json)
  | uuidD (u : UUID)
deriving DecidableEq

/-- A result tuple: the `result_values`/`result_nulls` pairs the C code
hands to `heap_form_tuple` (`none` is a NULL slot). -/
abbrev OutTuple := List (Option Datum)

/-- The bytes of the string v_nodes (the hardcoded `source_used` of the
single resolver). -/
def vNodesStr : Str := [118, 95, 110, 111, 100, 101, 115]

/-- The bytes of the string v_nodes_batch (the hardcoded fourth result
column of the batch resolver). -/
def vNodesBatchStr : Str :=
  [118, 95, 110, 111, 100, 101, 115, 95, 98, 97, 116, 99, 104]

/-- Result tuple of the single resolver: `__typename`, `data`,
`entity_name` from the matched view row, then the constant v_nodes. -/
def singleTuple (r : ViewRow) : OutTuple :=
  [some (.text r.typename), r.data.map .jsonb, some (.text r.entity_name),
   some (.text vNodesStr)]

/-- Result tuple of the batch resolver: `__typename`, `data`,
`entity_name` from the matched view row, then the constant
v_nodes_batch.  The `id` column fetched by the batch query is
discarded. -/
def batchTuple (r : ViewRow) : OutTuple :=
  [some (.text r.typename), r.data.map .jsonb, some (.text r.entity_name),
   some (.text vNodesBatchStr)]

/-- `fraiseql_resolve_node_fast`: NULL in, NULL out; otherwise the first
row of the view with `id = $1` (`LIMIT 1`), or the empty row set (the
NotFound signal). -/
def fraiseql_resolve_node_fast (vd : ViewDef) (db : Database)
    (nodeId : Option UUID) : Except ErrorKind (Option (List OutTuple)) :=
  match nodeId with
  | none => .ok none
  | some u =>
      .ok (some ((((evalViewDef vd db).filter (fun r => r.id = some u)).take 1).map
        singleTuple))

/-- The `ids_buf` loop of `fraiseql_resolve_nodes_batch`: NULL elements
are skipped, but the separating comma is emitted whenever the ARRAY
INDEX is positive — not whenever an element was already emitted. -/
def idsLoop : Nat → List (Option UUID) → Str
  | _, [] => []
  | i, none :: rest => idsLoop (i + 1) rest
  | i, some u :: rest =>
      (if i > 0 then [44] else []) ++ (39 :: uuid_out u ++ [39]) ++
        idsLoop (i + 1) rest

/-- SQL-side parse of the generated array-literal content: a non-empty
comma-separated sequence of quoted UUID literals, each cast through
`uuid_in`.  Fuel-based recursion (fuel bounds the remaining length).
`none` models the query failing with a syntax or cast error. -/
def parseItemsF : Nat → Str → Option (List UUID)
  | 0, _ => none
  | f + 1, 39 :: rest =>
      match rest.dropWhile (fun c => c != 39) with
      | 39 :: r2 =>
          match string_to_uuid (rest.takeWhile (fun c => c != 39)) with
          | some u =>
              match r2 with
              | [] => some [u]
              | 44 :: r3 => (parseItemsF f r3).map (fun l => u :: l)
              | _ => none
          | none => none
      | _ => none
  | _ + 1, _ => none

/-- SQL-side acceptance of `ARRAY[<content>]::uuid[]`: the empty content
is the valid empty array, otherwise the content must parse as a
well-formed item list. -/
def parseIdList (s : Str) : Option (List UUID) :=
  if s = [] then some [] else parseItemsF (s.length + 1) s

/-- Batch result ordering key: `ORDER BY __typename, id` ascending
(bytewise text order; a NULL id sorts last, as in PostgreSQL ASC). -/
def rowKey (r : ViewRow) : Lex (Str × Lex (Bool × List Nat)) :=
  toLex (r.typename,
    toLex (r.id.isNone, (r.id.map (fun u => u.val.map Fin.val)).getD []))

/-- The `ORDER BY __typename, id` relation on view rows. -/
def rowLe (a b : ViewRow) : Prop := rowKey a ≤ rowKey b

instance : DecidableRel rowLe := fun a b =>
  inferInstanceAs (Decidable (rowKey a ≤ rowKey b))

instance : IsTotal ViewRow rowLe := ⟨fun a b => le_total (rowKey a) (rowKey b)⟩

instance : IsTrans ViewRow rowLe := ⟨fun _ _ _ h1 h2 => le_trans h1 h2⟩

/-- `fraiseql_resolve_nodes_batch`: NULL in, NULL out; otherwise build the
array literal with `idsLoop`, run the membership query (an error when the
generated literal is malformed), and return the matched rows ordered by
`(__typename, id)`. -/
def fraiseql_resolve_nodes_batch (vd : ViewDef) (db : Database)
    (ids : Option (List (Option UUID))) :
    Except ErrorKind (Option (List OutTuple)) :=
  match ids with
  | none => .ok none
  | some arr =>
      match parseIdList (idsLoop 0 arr) with
      | none => .error .UpstreamUnavailable
      | some us =>
          .ok (some ((List.insertionSort rowLe
            ((evalViewDef vd db).filter
              (fun r => us.any (fun u => r.id = some u)))).map batchTuple))

/-- Environmental outcomes of the two checked SPI statements of the
refresh function (registry query and view creation).  SPI reports a
statement failure by raising an error, not through the return code; these
flags model whether each of the two statements runs to completion, and
the function aborts on a failure of either (the C source additionally
tests the return code and elogs, which raises the same way). -/
structure SpiOutcome where
  registryOk : Bool
  createOk : Bool

/-- What a completed `fraiseql_refresh_nodes_view_fast` call produces:
the new view definition, the returned success flag and the entity count
of its NOTICE. -/
structure RefreshResult where
  viewDef : ViewDef
  success : Bool
  entityCount : Nat

/-- The view definition the refresh builds from the registry snapshot:
the zero-entity sentinel (`WHERE FALSE`, same column shape) or the
`UNION ALL` of one projection per descriptor. -/
def refreshViewDef (reg : List RegistryRow) : ViewDef :=
  if (registryRead reg).length = 0 then ViewDef.empty
  else ViewDef.unionAll (registryRead reg)

/-- `fraiseql_refresh_nodes_view_fast`: read the registry (abort on
failure), create the synthesized view (abort on failure), then run the
index maintenance statements.  The three `DROP INDEX IF EXISTS`
statements complete (the indexes can never exist, and IF EXISTS turns a
missing index into a notice).  When at least one entity is registered the
function then runs `CREATE INDEX ... ON core.v_nodes(...)` — but
`core.v_nodes` was just (re)created as a plain view, on which CREATE
INDEX always raises a wrong-object-type error; the function ignores only
the return code and has no PG_TRY, so the raised error aborts the call
and propagates to the caller. -/
def fraiseql_refresh_nodes_view_fast (reg : List RegistryRow)
    (oc : SpiOutcome) : Except ErrorKind RefreshResult :=
  if oc.registryOk = false then .error .UpstreamUnavailable
  else if oc.createOk = false then .error .UpstreamUnavailable
  else if 0 < (registryRead reg).length then .error .UpstreamUnavailable
  else
    .ok { viewDef := refreshViewDef reg
          success := true
          entityCount := (registryRead reg).length }

/-! ## Auxiliary definitions used by the proofs -/

/-- `printFrom` with a leading hyphen stripped (what the parser sees right
after it has consumed the previous byte and skipped any hyphen). -/
def hexPrint (i : Nat) : List (Fin 256) → Str
  | [] => []
  | b :: bs => hexChar (b.val / 16) :: hexChar (b.val % 16) :: printFrom (i + 1) bs

/-- One quoted UUID literal of the generated `ARRAY[...]` text. -/
def itemStr (u : UUID) : Str := 39 :: uuid_out u ++ [39]

/-- Comma-prefixed items: what `idsLoop` emits for every element whose
array index is positive. -/
def commaItems : List UUID → Str
  | [] => []
  | u :: us => 44 :: itemStr u ++ commaItems us

/-- The UUID `00000000-0000-0000-0000-000000000001`. -/
def u1 : UUID :=
  ⟨List.replicate 15 (0 : Fin 256) ++ [(1 : Fin 256)], by simp⟩

/-- A one-entity descriptor used in concrete counterexamples: entity
E, graphql type T, primary key column p, data table dt,
source table s, soft-delete column x. -/
def desc0 : EntityDesc :=
  { entity_name := [69]
    graphql_type := [84]
    pk_column := [112]
    data_table := [100, 116]
    source_table := [115]
    delete_col := [120] }

/-- A one-row database: table dt holds a single live row whose
primary-key column p is `u1` and whose payload is the byte D. -/
def db0 : Database := fun tbl =>
  if tbl = [100, 116] then
    [{ pkOf := fun c => if c = [112] then some u1 else none
       isNull := fun _ => true
       data := some [68]
       created_at := 0
       updated_at := 0 }]
  else []

/-- The one-entity view over `desc0`. -/
def vd0 : ViewDef := .unionAll [desc0]

/-- A registry with a single entity (entity E, graphql type T, primary
key p, node view table dt, source table s, no tv_table and no
soft-delete column configured). -/
def reg0 : RegistryRow :=
  { entity_name := [69]
    graphql_type := [84]
    pk_column := [112]
    tv_table := none
    v_table := some [100, 116]
    source_table := [115]
    soft_delete_column := none }

/-- The spec's decode failure condition (section 4.1): the text cannot be
reverse-transformed, or the decoded text contains no colon, or the
substring after the first colon is not a syntactically valid UUID. -/
def decodeFailureCondition (g : Str) : Prop :=
  b64decode g = none ∨
    ∃ d, b64decode g = some d ∧
      ((58 : Nat) ∉ cString d ∨
        ∃ pre suf, cString d = pre ++ 58 :: suf ∧ (58 : Nat) ∉ pre ∧
          string_to_uuid suf = none)

/-- The concrete global id `encode("a:b", uuidZero)` produces: base64 of
the bytes of a:b:00000000-0000-0000-0000-000000000000. -/
def c2Literal : Str :=
  [89, 84, 112, 105, 79, 106, 65, 119, 77, 68, 65, 119, 77, 68, 65, 119,
   76, 84, 65, 119, 77, 68, 65, 116, 77, 68, 65, 119, 77, 67, 48, 119,
   77, 68, 65, 119, 76, 84, 65, 119, 77, 68, 65, 119, 77, 68, 65, 119,
   77, 68, 65, 119, 77, 65, 61, 61]

/-- The single output tuple of the batch resolver over `vd0`/`db0` for the
input `[some u1]`: type name T, payload D, entity E and the constant
source marker — the matched id `u1` appears nowhere in it. -/
def batchOut0 : OutTuple :=
  [some (.text [84]), some (.jsonb [68]), some (.text [69]),
   some (.text vNodesBatchStr)]

/-! ## List helper lemmas -/

theorem cString_of_ne_zero {s : Str} (h : ∀ c ∈ s, c ≠ 0) : cString s = s := by
  induction s with
  | nil => rfl
  | cons c t ih =>
      have hc : c ≠ 0 := h c (by simp)
      show List.takeWhile _ (c :: t) = _
      rw [List.takeWhile_cons_of_pos (by simpa using hc)]
      exact congrArg (c :: ·) (ih (fun x hx => h x (by simp [hx])))

theorem takeWhile_needle {c : Nat} (pre suf : Str) (h : c ∉ pre) :
    (pre ++ c :: suf).takeWhile (fun x => x != c) = pre ∧
      (pre ++ c :: suf).dropWhile (fun x => x != c) = c :: suf := by
  induction pre with
  | nil =>
      constructor
      · rw [List.nil_append, List.takeWhile_cons_of_neg (by simp)]
      · rw [List.nil_append, List.dropWhile_cons_of_neg (by simp)]
  | cons a t ih =>
      have ha : a ≠ c := by intro hac; exact h (by simp [hac])
      have ht : c ∉ t := fun hm => h (by simp [hm])
      obtain ⟨h1, h2⟩ := ih ht
      constructor
      · rw [List.cons_append, List.takeWhile_cons_of_pos (by simpa using ha)]
        exact congrArg (a :: ·) h1
      · rw [List.cons_append, List.dropWhile_cons_of_pos (by simpa using ha)]
        exact h2

theorem dropWhile_needle_split {c : Nat} {l t : Str} {a : Nat}
    (h : l.dropWhile (fun x => x != c) = a :: t) :
    a = c ∧ ∃ pre, l = pre ++ c :: t ∧ c ∉ pre := by
  induction l with
  | nil => simp [List.dropWhile] at h
  | cons b bs ih =>
      by_cases hb : b = c
      · subst hb
        rw [List.dropWhile_cons_of_neg (by simp)] at h
        obtain ⟨rfl, rfl⟩ := List.cons.inj h
        exact ⟨rfl, [], rfl, by simp⟩
      · rw [List.dropWhile_cons_of_pos (by simpa using hb)] at h
        obtain ⟨rfl, pre, rfl, hpre⟩ := ih h
        exact ⟨rfl, b :: pre, rfl, by
          simp only [List.mem_cons, not_or]
          exact ⟨fun hab => hb hab.symm, hpre⟩⟩

/-- Uniqueness of the first-needle decomposition of a list. -/
theorem first_needle_unique {c : Nat} {p1 s1 p2 s2 : Str}
    (h : p1 ++ c :: s1 = p2 ++ c :: s2) (h1 : c ∉ p1) (h2 : c ∉ p2) :
    p1 = p2 ∧ s1 = s2 := by
  induction p1 generalizing p2 with
  | nil =>
      cases p2 with
      | nil => simpa using h
      | cons b t =>
          exfalso
          simp only [List.nil_append, List.cons_append, List.cons.injEq] at h
          exact h2 (h.1 ▸ List.mem_cons_self b t)
  | cons a p ih =>
      cases p2 with
      | nil =>
          exfalso
          simp only [List.cons_append, List.nil_append, List.cons.injEq] at h
          exact h1 (h.1 ▸ List.mem_cons_self a p)
      | cons b t =>
          simp only [List.cons_append, List.cons.injEq] at h
          obtain ⟨rfl, h⟩ := h
          obtain ⟨rfl, rfl⟩ := ih h (fun hm => h1 (by simp [hm]))
            (fun hm => h2 (by simp [hm]))
          exact ⟨rfl, rfl⟩

/-! ## Base64 lemmas -/

theorem b64val_sextetChar_fin : ∀ v : Fin 64, b64val (sextetChar v.val) = some v.val := by
  decide

theorem sextetChar_ne_61_fin : ∀ v : Fin 64, sextetChar v.val ≠ 61 := by decide

theorem sextetChar_props_fin :
    ∀ v : Fin 64, sextetChar v.val ≠ 0 ∧ sextetChar v.val < 256 := by decide

theorem b64val_sextetChar {v : Nat} (h : v < 64) : b64val (sextetChar v) = some v :=
  b64val_sextetChar_fin ⟨v, h⟩

theorem sextetChar_ne_61 {v : Nat} (h : v < 64) : sextetChar v ≠ 61 :=
  sextetChar_ne_61_fin ⟨v, h⟩

/-- Decoding inverts encoding on byte sequences. -/
theorem b64_roundtrip : ∀ bs : List Nat, (∀ b ∈ bs, b < 256) →
    b64decode (b64encode bs) = some bs := by
  intro bs
  induction bs using b64encode.induct with
  | case1 => intro _; rfl
  | case2 b0 =>
      intro h
      have h0 : b0 < 256 := h b0 (by simp)
      have e1 : b64val (sextetChar (b0 / 4)) = some (b0 / 4) :=
        b64val_sextetChar (by omega)
      have e2 : b64val (sextetChar (b0 % 4 * 16)) = some (b0 % 4 * 16) :=
        b64val_sextetChar (by omega)
      simp only [b64encode, b64decode, e1, e2]
      simp only [if_pos rfl, and_self, List.cons.injEq, and_true,
        Option.some.injEq, if_true]
      simp
      omega
  | case3 b0 b1 =>
      intro h
      have h0 : b0 < 256 := h b0 (by simp)
      have h1 : b1 < 256 := h b1 (by simp)
      have e1 : b64val (sextetChar (b0 / 4)) = some (b0 / 4) :=
        b64val_sextetChar (by omega)
      have e2 : b64val (sextetChar (b0 % 4 * 16 + b1 / 16)) =
          some (b0 % 4 * 16 + b1 / 16) := b64val_sextetChar (by omega)
      have e3 : b64val (sextetChar (b1 % 16 * 4)) = some (b1 % 16 * 4) :=
        b64val_sextetChar (by omega)
      have hne : sextetChar (b1 % 16 * 4) ≠ 61 := sextetChar_ne_61 (by omega)
      simp only [b64encode, b64decode, e1, e2, e3, hne]
      simp
      omega
  | case4 b0 b1 b2 rest ih =>
      intro h
      have h0 : b0 < 256 := h b0 (by simp)
      have h1 : b1 < 256 := h b1 (by simp)
      have h2 : b2 < 256 := h b2 (by simp)
      have e1 : b64val (sextetChar (b0 / 4)) = some (b0 / 4) :=
        b64val_sextetChar (by omega)
      have e2 : b64val (sextetChar (b0 % 4 * 16 + b1 / 16)) =
          some (b0 % 4 * 16 + b1 / 16) := b64val_sextetChar (by omega)
      have e3 : b64val (sextetChar (b1 % 16 * 4 + b2 / 64)) =
          some (b1 % 16 * 4 + b2 / 64) := b64val_sextetChar (by omega)
      have e4 : b64val (sextetChar (b2 % 64)) = some (b2 % 64) :=
        b64val_sextetChar (by omega)
      have hne1 : sextetChar (b1 % 16 * 4 + b2 / 64) ≠ 61 :=
        sextetChar_ne_61 (by omega)
      have hne2 : sextetChar (b2 % 64) ≠ 61 := sextetChar_ne_61 (by omega)
      have hrec : b64decode (b64encode rest) = some rest :=
        ih (fun b hb => h b (by simp [hb]))
      simp only [b64encode, b64decode, e1, e2, e3, e4, hne1, hne2, hrec]
      simp
      omega

theorem sextetChar_ne_zero (v : Nat) : sextetChar v ≠ 0 := by
  unfold sextetChar
  split_ifs <;> omega

/-- Every character the encoder emits is a non-NUL byte. -/
theorem b64encode_chars : ∀ bs : List Nat, ∀ c ∈ b64encode bs, c ≠ 0 := by
  intro bs
  induction bs using b64encode.induct with
  | case1 => intro c hc; simp [b64encode] at hc
  | case2 b0 =>
      intro c hc
      simp only [b64encode, List.mem_cons, List.not_mem_nil, or_false] at hc
      rcases hc with rfl | rfl | rfl | rfl
      · exact sextetChar_ne_zero _
      · exact sextetChar_ne_zero _
      · omega
      · omega
  | case3 b0 b1 =>
      intro c hc
      simp only [b64encode, List.mem_cons, List.not_mem_nil, or_false] at hc
      rcases hc with rfl | rfl | rfl | rfl
      · exact sextetChar_ne_zero _
      · exact sextetChar_ne_zero _
      · exact sextetChar_ne_zero _
      · omega
  | case4 b0 b1 b2 rest ih =>
      intro c hc
      simp only [b64encode, List.mem_cons] at hc
      rcases hc with rfl | rfl | rfl | rfl | hm
      · exact sextetChar_ne_zero _
      · exact sextetChar_ne_zero _
      · exact sextetChar_ne_zero _
      · exact sextetChar_ne_zero _
      · exact ih c hm

/-! ## UUID text lemmas -/

theorem hexVal_hexChar_fin : ∀ x : Fin 16, hexVal (hexChar x.val) = some x := by
  decide

theorem hexChar_facts_fin : ∀ x : Fin 16,
    hexChar x.val ≠ 45 ∧ hexChar x.val ≠ 0 ∧ hexChar x.val ≠ 123 ∧
      hexChar x.val ≠ 58 ∧ hexChar x.val ≠ 39 ∧ hexChar x.val < 256 := by
  decide

theorem hexVal_58 : hexVal 58 = none := by decide

/-- Every character of a printed UUID is a hyphen or a hex digit. -/
theorem printFrom_chars : ∀ (bs : List (Fin 256)) (i : Nat), ∀ c ∈ printFrom i bs,
    c = 45 ∨ ∃ x : Fin 16, c = hexChar x.val := by
  intro bs
  induction bs with
  | nil => intro i c hc; simp [printFrom] at hc
  | cons b bs ih =>
      intro i c hc
      have hbv := b.isLt
      simp only [printFrom, List.mem_append, List.mem_cons] at hc
      rcases hc with hdash | rfl | rfl | hm
      · left
        by_cases hp : i = 4 ∨ i = 6 ∨ i = 8 ∨ i = 10
        · rw [if_pos hp] at hdash; simpa using hdash
        · rw [if_neg hp] at hdash; simp at hdash
      · exact Or.inr ⟨⟨b.val / 16, by omega⟩, rfl⟩
      · exact Or.inr ⟨⟨b.val % 16, by omega⟩, rfl⟩
      · exact ih (i + 1) c hm

theorem uuid_out_chars (u : UUID) :
    ∀ c ∈ uuid_out u, c ≠ 0 ∧ c < 256 ∧ c ≠ 39 := by
  intro c hc
  rcases printFrom_chars u.val 0 c hc with rfl | ⟨x, rfl⟩
  · exact ⟨by omega, by omega, by omega⟩
  · obtain ⟨_, h0, _, _, h39, hlt⟩ := hexChar_facts_fin x
    exact ⟨h0, hlt, h39⟩

theorem hexPrint_cons (i : Nat) (b : Fin 256) (bs : List (Fin 256)) :
    hexPrint i (b :: bs) =
      hexChar (b.val / 16) :: hexChar (b.val % 16) :: printFrom (i + 1) bs := rfl

/-- The parser consumes exactly what the printer emits. -/
theorem parseAux_hexPrint : ∀ (bs : List (Fin 256)) (i : Nat) (rest : Str),
    i + bs.length = 16 →
    parseAux bs.length i (hexPrint i bs ++ rest) = some (bs, rest) := by
  intro bs
  induction bs with
  | nil => intro i rest _; rfl
  | cons b bs ih =>
      intro i rest hlen
      have hbv := b.isLt
      have e1 : hexVal (hexChar (b.val / 16)) = some ⟨b.val / 16, by omega⟩ :=
        hexVal_hexChar_fin ⟨b.val / 16, by omega⟩
      have e2 : hexVal (hexChar (b.val % 16)) = some ⟨b.val % 16, by omega⟩ :=
        hexVal_hexChar_fin ⟨b.val % 16, by omega⟩
      show parseAux (bs.length + 1) i
        (hexChar (b.val / 16) :: hexChar (b.val % 16) ::
          (printFrom (i + 1) bs ++ rest)) = some (b :: bs, rest)
      simp only [parseAux, e1, e2]
      cases bs with
      | nil =>
          have hi : i = 15 := by simpa using hlen
          subst hi
          have hskip : skipHyphen 15 (printFrom 16 [] ++ rest) = rest := by
            simp [skipHyphen, printFrom]
          rw [hskip]
          simp only [parseAux, Option.map_some']
          simp only [Option.some.injEq, Prod.mk.injEq, List.cons.injEq,
            and_true, true_and]
          exact Fin.ext (by omega : 16 * (b.val / 16) + b.val % 16 = b.val)
      | cons b2 bs2 =>
          have hb2 := b2.isLt
          by_cases hp : i + 1 = 4 ∨ i + 1 = 6 ∨ i + 1 = 8 ∨ i + 1 = 10
          · have hpf : printFrom (i + 1) (b2 :: bs2) =
                45 :: hexPrint (i + 1) (b2 :: bs2) := by
              simp only [printFrom, hexPrint_cons, if_pos hp]
              rfl
            have hcond : i % 2 = 1 ∧ i < 15 ∧
                (hexPrint (i + 1) (b2 :: bs2) ++ rest).head? = some 45 →
                True := fun _ => trivial
            rw [hpf, List.cons_append]
            have hskip : skipHyphen i
                (45 :: (hexPrint (i + 1) (b2 :: bs2) ++ rest)) =
                hexPrint (i + 1) (b2 :: bs2) ++ rest := by
              rw [skipHyphen, if_pos ⟨by omega, by omega, rfl⟩]
              rfl
            rw [hskip, ih (i + 1) rest (by simp at hlen ⊢; omega)]
            simp only [Option.map_some', Option.some.injEq, Prod.mk.injEq,
              List.cons.injEq, and_true, true_and]
            exact Fin.ext (by omega : 16 * (b.val / 16) + b.val % 16 = b.val)
          · have hpf : printFrom (i + 1) (b2 :: bs2) =
                hexPrint (i + 1) (b2 :: bs2) := by
              simp only [printFrom, hexPrint_cons, if_neg hp]
              rfl
            rw [hpf]
            have hne45 : hexChar (b2.val / 16) ≠ 45 :=
              (hexChar_facts_fin ⟨b2.val / 16, by omega⟩).1
            have hskip : skipHyphen i (hexPrint (i + 1) (b2 :: bs2) ++ rest) =
                hexPrint (i + 1) (b2 :: bs2) ++ rest := by
              rw [skipHyphen, if_neg]
              intro hcond
              rcases hcond with ⟨_, _, h45⟩
              rw [hexPrint_cons, List.cons_append] at h45
              simp only [List.head?_cons, Option.some.injEq] at h45
              exact hne45 h45
            rw [hskip, ih (i + 1) rest (by simp at hlen ⊢; omega)]
            simp only [Option.map_some', Option.some.injEq, Prod.mk.injEq,
              List.cons.injEq, and_true, true_and]
            exact Fin.ext (by omega : 16 * (b.val / 16) + b.val % 16 = b.val)

/-- `uuid_in` inverts `uuid_out`. -/
theorem uuid_roundtrip (u : UUID) : string_to_uuid (uuid_out u) = some u := by
  obtain ⟨bs, hlen⟩ := u
  cases bs with
  | nil => simp at hlen
  | cons b bs =>
      have hbv := b.isLt
      have hout : uuid_out ⟨b :: bs, hlen⟩ = hexPrint 0 (b :: bs) := by
        simp only [uuid_out, printFrom, hexPrint_cons]
        rw [if_neg (by omega)]
        rfl
      rw [hout]
      have hne123 : hexChar (b.val / 16) ≠ 123 :=
        (hexChar_facts_fin ⟨b.val / 16, by omega⟩).2.2.1
      rw [string_to_uuid, hexPrint_cons, if_neg (by
        simp only [List.head?_cons, Option.some.injEq]
        exact hne123)]
      rw [finishParse]
      have hmain := parseAux_hexPrint (b :: bs) 0 [] (by simpa using hlen)
      rw [List.append_nil] at hmain
      rw [hexPrint_cons] at hmain
      rw [show (b :: bs).length = 16 from hlen] at hmain
      rw [hmain]
      simp [hlen]

theorem hexVal_some_ne_58 {c : Nat} {x : Fin 16} (h : hexVal c = some x) :
    c ≠ 58 := by
  intro hc
  rw [hc, hexVal_58] at h
  exact Option.noConfusion h

/-- Whatever the UUID parser accepts splits as consumed text (free of
colons) followed by the returned remainder. -/
theorem parseAux_split : ∀ (n i : Nat) (s : Str) (bs : List (Fin 256))
    (rest : Str), parseAux n i s = some (bs, rest) →
    ∃ pre, s = pre ++ rest ∧ (58 : Nat) ∉ pre := by
  intro n
  induction n with
  | zero =>
      intro i s bs rest h
      simp only [parseAux, Option.some.injEq, Prod.mk.injEq] at h
      exact ⟨[], by rw [h.2]; rfl, by simp⟩
  | succ n ih =>
      intro i s bs rest h
      match s with
      | [] => exact absurd h (by simp [parseAux])
      | [c] => exact absurd h (by simp [parseAux])
      | c1 :: c2 :: s3 =>
          rw [parseAux] at h
          cases hv1 : hexVal c1 with
          | none => rw [hv1] at h; exact absurd h (by simp)
          | some hi =>
          cases hv2 : hexVal c2 with
          | none => rw [hv1, hv2] at h; exact absurd h (by simp)
          | some lo =>
          rw [hv1, hv2] at h
          simp only [Option.map_eq_some'] at h
          obtain ⟨⟨bs3, rest3⟩, hrec, heq⟩ := h
          simp only [Prod.mk.injEq] at heq
          obtain ⟨hbs, hrest⟩ := heq
          have hne1 : c1 ≠ 58 := hexVal_some_ne_58 hv1
          have hne2 : c2 ≠ 58 := hexVal_some_ne_58 hv2
          by_cases hc : i % 2 = 1 ∧ i < 15 ∧ s3.head? = some 45
          · have hsk : skipHyphen i s3 = s3.tail := if_pos hc
            obtain ⟨t, rfl⟩ : ∃ t, s3 = 45 :: t := by
              cases s3 with
              | nil => exact absurd hc.2.2 (by simp)
              | cons a t =>
                  obtain ⟨_, _, h45⟩ := hc
                  simp only [List.head?_cons, Option.some.injEq] at h45
                  exact ⟨t, by rw [h45]⟩
            rw [hsk] at hrec
            simp only [List.tail_cons] at hrec
            obtain ⟨pre, hteq, hmem⟩ := ih (i + 1) t bs3 rest3 hrec
            refine ⟨c1 :: c2 :: 45 :: pre, ?_, ?_⟩
            · rw [hteq, hrest]; simp
            · simp only [List.mem_cons, not_or]
              exact ⟨fun he => hne1 he.symm, fun he => hne2 he.symm,
                by omega, hmem⟩
          · have hsk : skipHyphen i s3 = s3 := if_neg hc
            rw [hsk] at hrec
            obtain ⟨pre, hteq, hmem⟩ := ih (i + 1) s3 bs3 rest3 hrec
            refine ⟨c1 :: c2 :: pre, ?_, ?_⟩
            · rw [hteq, hrest]; simp
            · simp only [List.mem_cons, not_or]
              exact ⟨fun he => hne1 he.symm, fun he => hne2 he.symm, hmem⟩

/-- A string the UUID parser accepts contains no colon. -/
theorem string_to_uuid_no_colon {s : Str} {u : UUID}
    (h : string_to_uuid s = some u) : (58 : Nat) ∉ s := by
  rw [string_to_uuid] at h
  by_cases hb : s.head? = some 123
  · rw [if_pos hb] at h
    obtain ⟨t, rfl⟩ : ∃ t, s = 123 :: t := by
      cases s with
      | nil => exact absurd hb (by simp)
      | cons a t =>
          simp only [List.head?_cons, Option.some.injEq] at hb
          exact ⟨t, by rw [hb]⟩
    rw [finishParse] at h
    split at h
    · rename_i bs rest hp
      split at h
      · split at h
        · rename_i hcond
          have hrest : rest = [125] := hcond.2
          subst hrest
          obtain ⟨pre, hteq, hmem⟩ := parseAux_split 16 0 _ bs [125] hp
          simp only [List.tail_cons] at hteq
          subst hteq
          simp only [List.mem_cons, List.mem_append, not_or]
          exact ⟨by omega, hmem, by simp⟩
        · exact absurd h (by simp)
      · rename_i hfalse
        exact absurd rfl hfalse
    · exact absurd h (by simp)
  · rw [if_neg hb] at h
    rw [finishParse] at h
    split at h
    · rename_i bs rest hp
      split at h
      · rename_i htrue
        exact absurd htrue (by simp)
      · split at h
        · rename_i hcond
          have hrest : rest = [] := hcond.2
          subst hrest
          obtain ⟨pre, hteq, hmem⟩ := parseAux_split 16 0 _ bs [] hp
          rw [List.append_nil] at hteq
          subst hteq
          exact hmem
        · exact absurd h (by simp)
    · exact absurd h (by simp)

/-! ## Codec glue lemmas -/

theorem payload_bytes {t : Str} (hb : ∀ c ∈ t, c < 256) (u : UUID) :
    ∀ b ∈ t ++ 58 :: uuid_out u, b < 256 := by
  intro b hmem
  rcases List.mem_append.mp hmem with hmt | hmr
  · exact hb b hmt
  · rcases List.mem_cons.mp hmr with rfl | hmu
    · omega
    · exact (uuid_out_chars u b hmu).2.1

theorem payload_ne_zero {t : Str} (h0 : (0 : Nat) ∉ t) (u : UUID) :
    ∀ b ∈ t ++ 58 :: uuid_out u, b ≠ 0 := by
  intro b hmem
  rcases List.mem_append.mp hmem with hmt | hmr
  · exact fun he => h0 (he ▸ hmt)
  · rcases List.mem_cons.mp hmr with rfl | hmu
    · omega
    · exact (uuid_out_chars u b hmu).1

/-- Core of the round trip: decoding the encoded payload of a colon-free
type name returns the pair. -/
theorem decodeBody_encode (t : Str) (u : UUID) (hc : (58 : Nat) ∉ t)
    (h0 : (0 : Nat) ∉ t) (hb : ∀ c ∈ t, c < 256) :
    decodeGlobalIdBody (b64encode (t ++ 58 :: uuid_out u)) = .ok (t, u) := by
  have h1 : cString (b64encode (t ++ 58 :: uuid_out u)) =
      b64encode (t ++ 58 :: uuid_out u) :=
    cString_of_ne_zero (b64encode_chars _)
  have h2 : b64decode (b64encode (t ++ 58 :: uuid_out u)) =
      some (t ++ 58 :: uuid_out u) := b64_roundtrip _ (payload_bytes hb u)
  have h3 : cString (t ++ 58 :: uuid_out u) = t ++ 58 :: uuid_out u :=
    cString_of_ne_zero (payload_ne_zero h0 u)
  obtain ⟨htw, hdw⟩ := takeWhile_needle t (uuid_out u) hc
  simp only [decodeGlobalIdBody, h1, h2, h3, hdw, uuid_roundtrip u, htw]

/-- Core of the colon-rejection correction: encoding does not validate, and
decoding the result fails because the text after the first colon still
contains the separator colon and therefore is not a valid UUID. -/
theorem decodeBody_encode_colon (t : Str) (u : UUID) (hc : (58 : Nat) ∈ t)
    (h0 : (0 : Nat) ∉ t) (hb : ∀ c ∈ t, c < 256) :
    decodeGlobalIdBody (b64encode (t ++ 58 :: uuid_out u)) =
      .error .InvalidFormat := by
  have hne : t.dropWhile (fun x => x != 58) ≠ [] := by
    rw [Ne, List.dropWhile_eq_nil_iff]
    intro hall
    have := hall 58 hc
    simp at this
  obtain ⟨a, t2, hdrop⟩ : ∃ a t2, t.dropWhile (fun x => x != 58) = a :: t2 := by
    cases hd : t.dropWhile (fun x => x != 58) with
    | nil => exact absurd hd hne
    | cons a t2 => exact ⟨a, t2, rfl⟩
  obtain ⟨rfl, pre, hteq, hpre⟩ := dropWhile_needle_split hdrop
  subst hteq
  have hsplit : (pre ++ 58 :: t2) ++ 58 :: uuid_out u =
      pre ++ 58 :: (t2 ++ 58 :: uuid_out u) := by simp
  rw [hsplit]
  have h1 : cString (b64encode (pre ++ 58 :: (t2 ++ 58 :: uuid_out u))) =
      b64encode (pre ++ 58 :: (t2 ++ 58 :: uuid_out u)) :=
    cString_of_ne_zero (b64encode_chars _)
  have h2 : b64decode (b64encode (pre ++ 58 :: (t2 ++ 58 :: uuid_out u))) =
      some (pre ++ 58 :: (t2 ++ 58 :: uuid_out u)) := by
    apply b64_roundtrip
    intro b hmem
    rcases List.mem_append.mp hmem with hm | hm
    · exact hb b (by simp [hm])
    · rcases List.mem_cons.mp hm with rfl | hm2
      · omega
      · rcases List.mem_append.mp hm2 with hm3 | hm3
        · exact hb b (by simp [hm3])
        · rcases List.mem_cons.mp hm3 with rfl | hm4
          · omega
          · exact (uuid_out_chars u b hm4).2.1
  have h3 : cString (pre ++ 58 :: (t2 ++ 58 :: uuid_out u)) =
      pre ++ 58 :: (t2 ++ 58 :: uuid_out u) := by
    apply cString_of_ne_zero
    intro b hmem
    rcases List.mem_append.mp hmem with hm | hm
    · exact fun he => h0 (by simp [he ▸ hm])
    · rcases List.mem_cons.mp hm with rfl | hm2
      · omega
      · rcases List.mem_append.mp hm2 with hm3 | hm3
        · exact fun he => h0 (by simp [he ▸ hm3])
        · rcases List.mem_cons.mp hm3 with rfl | hm4
          · omega
          · exact (uuid_out_chars u b hm4).1
  obtain ⟨htw, hdw⟩ := takeWhile_needle pre (t2 ++ 58 :: uuid_out u) hpre
  have hbad : string_to_uuid (t2 ++ 58 :: uuid_out u) = none := by
    cases hsu : string_to_uuid (t2 ++ 58 :: uuid_out u) with
    | none => rfl
    | some u2 =>
        exact absurd (string_to_uuid_no_colon hsu) (by simp)
  simp only [decodeGlobalIdBody, h1, h2, h3, hdw, hbad]

/-! ## Batch array-literal lemmas -/

theorem uuid_out_no_quote (u : UUID) : (39 : Nat) ∉ uuid_out u :=
  fun hm => (uuid_out_chars u 39 hm).2.2 rfl

theorem idsLoop_pos : ∀ (rest : List (Option UUID)) (i : Nat), 1 ≤ i →
    idsLoop i rest = commaItems (rest.filterMap (fun x => x)) := by
  intro rest
  induction rest with
  | nil => intro i _; rfl
  | cons o r ih =>
      intro i hi
      cases o with
      | none =>
          rw [show idsLoop i (none :: r) = idsLoop (i + 1) r from rfl]
          rw [ih (i + 1) (by omega)]
          simp [List.filterMap_cons]
      | some u =>
          show (if i > 0 then [44] else []) ++ (39 :: uuid_out u ++ [39]) ++
            idsLoop (i + 1) r = _
          rw [if_pos (by omega : i > 0), ih (i + 1) (by omega)]
          simp [commaItems, itemStr, List.filterMap_cons]

theorem parseItemsF_cons44 (f : Nat) (t : Str) :
    parseItemsF (f + 1) (44 :: t) = none := rfl

theorem parseItemsF_run : ∀ (us : List UUID) (u : UUID) (fuel : Nat),
    (itemStr u ++ commaItems us).length ≤ fuel →
    parseItemsF fuel (itemStr u ++ commaItems us) = some (u :: us) := by
  intro us
  induction us with
  | nil =>
      intro u fuel hf
      cases fuel with
      | zero => simp [itemStr] at hf
      | succ f =>
          show parseItemsF (f + 1) (39 :: (uuid_out u ++ [39] ++ commaItems [])) =
            some [u]
          have harg : uuid_out u ++ [39] ++ commaItems [] =
              uuid_out u ++ 39 :: [] := by simp [commaItems]
          rw [harg]
          obtain ⟨htw, hdw⟩ := takeWhile_needle (uuid_out u) []
            (uuid_out_no_quote u)
          rw [parseItemsF, hdw, htw, uuid_roundtrip u]
  | cons u2 us ih =>
      intro u fuel hf
      cases fuel with
      | zero => simp [itemStr] at hf
      | succ f =>
          show parseItemsF (f + 1)
            (39 :: (uuid_out u ++ [39] ++ commaItems (u2 :: us))) = some (u :: u2 :: us)
          have harg : uuid_out u ++ [39] ++ commaItems (u2 :: us) =
              uuid_out u ++ 39 :: (44 :: (itemStr u2 ++ commaItems us)) := by
            simp [commaItems]
          rw [harg]
          obtain ⟨htw, hdw⟩ := takeWhile_needle (uuid_out u)
            (44 :: (itemStr u2 ++ commaItems us)) (uuid_out_no_quote u)
          simp only [parseItemsF, hdw, htw, uuid_roundtrip u]
          rw [ih u2 f (by
            simp only [itemStr, List.length_append, List.length_cons,
              commaItems] at hf ⊢
            omega)]
          rfl

/-- On success the array-literal content parses back to exactly the
non-NULL input ids, in order. -/
theorem batch_content_ok : ∀ (arr : List (Option UUID)) (us : List UUID),
    parseIdList (idsLoop 0 arr) = some us →
    us = arr.filterMap (fun x => x) := by
  intro arr us h
  cases arr with
  | nil =>
      rw [show idsLoop 0 [] = [] from rfl] at h
      rw [parseIdList, if_pos rfl] at h
      simp only [Option.some.injEq] at h
      simp [← h]
  | cons o rest =>
      cases o with
      | none =>
          rw [show idsLoop 0 (none :: rest) = idsLoop 1 rest from rfl,
            idsLoop_pos rest 1 (by omega)] at h
          cases hfm : rest.filterMap (fun x => x) with
          | nil =>
              rw [hfm] at h
              rw [show commaItems [] = [] from rfl, parseIdList, if_pos rfl] at h
              simp only [Option.some.injEq] at h
              simp [← h, List.filterMap_cons, hfm]
          | cons u2 us2 =>
              exfalso
              rw [hfm] at h
              rw [show commaItems (u2 :: us2) = 44 :: (itemStr u2 ++ commaItems us2)
                from rfl] at h
              rw [parseIdList, if_neg (by simp)] at h
              rw [show (44 :: (itemStr u2 ++ commaItems us2)).length + 1 =
                (itemStr u2 ++ commaItems us2).length + 1 + 1 from by simp] at h
              rw [parseItemsF_cons44] at h
              exact Option.noConfusion h
      | some u =>
          rw [show idsLoop 0 (some u :: rest) = itemStr u ++ idsLoop 1 rest
              from by
            show (if 0 > 0 then [44] else []) ++ (39 :: uuid_out u ++ [39]) ++
              idsLoop 1 rest = _
            simp [itemStr],
            idsLoop_pos rest 1 (by omega)] at h
          rw [parseIdList, if_neg (by simp [itemStr])] at h
          rw [parseItemsF_run (rest.filterMap (fun x => x)) u _ (by omega)] at h
          simp only [Option.some.injEq] at h
          simp [← h, List.filterMap_cons]

/-! ## Unified view lemmas -/

theorem mem_evalSpecs (db : Database) : ∀ (ds : List EntityDesc) (v : ViewRow),
    v ∈ evalSpecs db ds ↔ ∃ d ∈ ds, ∃ r ∈ db d.data_table,
      r.isNull d.delete_col = true ∧ v = projectRow d r := by
  intro ds
  induction ds with
  | nil => intro v; simp [evalSpecs]
  | cons d ds ih =>
      intro v
      constructor
      · intro hmem
        rcases List.mem_append.mp hmem with hl | hr
        · obtain ⟨r, hrf, hv⟩ := List.mem_map.mp hl
          obtain ⟨hrdb, hpred⟩ := List.mem_filter.mp hrf
          exact ⟨d, by simp, r, hrdb, hpred, hv.symm⟩
        · obtain ⟨d2, hd2, r, hrdb, hpred, hv⟩ := (ih _).mp hr
          exact ⟨d2, by simp [hd2], r, hrdb, hpred, hv⟩
      · rintro ⟨d2, hd2, r, hrdb, hpred, hv⟩
        rcases List.mem_cons.mp hd2 with rfl | hd3
        · exact List.mem_append.mpr (Or.inl (List.mem_map.mpr
            ⟨r, List.mem_filter.mpr ⟨hrdb, hpred⟩, hv.symm⟩))
        · exact List.mem_append.mpr (Or.inr ((ih _).mpr
            ⟨d2, hd3, r, hrdb, hpred, hv⟩))

theorem mem_registryRead {reg : List RegistryRow} {d : EntityDesc} :
    d ∈ registryRead reg ↔
      ∃ row ∈ reg, row.v_table.isSome = true ∧ d = mkDesc row := by
  rw [registryRead, (List.perm_insertionSort descLe _).mem_iff]
  constructor
  · intro hm
    obtain ⟨row, hrf, hv⟩ := List.mem_map.mp hm
    obtain ⟨hrm, hrv⟩ := List.mem_filter.mp hrf
    exact ⟨row, hrm, hrv, hv.symm⟩
  · rintro ⟨row, hrm, hrv, rfl⟩
    exact List.mem_map.mpr ⟨row, List.mem_filter.mpr ⟨hrm, hrv⟩, rfl⟩

theorem registryRead_eq_nil {reg : List RegistryRow} :
    registryRead reg = [] ↔
      reg.filter (fun r => r.v_table.isSome) = [] := by
  constructor
  · intro h
    have hp := List.perm_insertionSort descLe
      ((reg.filter (fun r => r.v_table.isSome)).map mkDesc)
    rw [registryRead] at h
    rw [h] at hp
    have hmap : (reg.filter (fun r => r.v_table.isSome)).map mkDesc = [] :=
      hp.symm.eq_nil
    simpa using hmap
  · intro h
    rw [registryRead, h]
    rfl

/-! ## Resolver inversion helper -/

theorem batch_ok_inv {vd : ViewDef} {db : Database} {arr : List (Option UUID)}
    {out : List OutTuple}
    (h : fraiseql_resolve_nodes_batch vd db (some arr) = .ok (some out)) :
    ∃ us, parseIdList (idsLoop 0 arr) = some us ∧
      out = (List.insertionSort rowLe ((evalViewDef vd db).filter
        (fun r => us.any (fun u => r.id = some u)))).map batchTuple := by
  rw [fraiseql_resolve_nodes_batch] at h
  split at h
  · exact absurd h (by simp)
  · rename_i us hp
    simp only [Except.ok.injEq, Option.some.injEq] at h
    exact ⟨us, hp, h.symm⟩

/-! ## Claim theorems -/

/-- C1: for every typeName (a well-formed, colon-free text value) and
every UUID, decoding the encoded global id returns exactly the original
pair: encode succeeds with `base64(typeName ":" canonicalUuid)` and decode
reverses the transform and splits on the first colon. -/
theorem global_id_roundtrip (t : Str) (u : UUID) (hc : (58 : Nat) ∉ t)
    (h0 : (0 : Nat) ∉ t) (hb : ∀ c ∈ t, c < 256) :
    ∃ g, fraiseql_encode_global_id (some t) (some u) = .ok (some g) ∧
      fraiseql_decode_global_id (some g) = .ok (some (t, u)) := by
  have hcs : cString t = t := cString_of_ne_zero (fun c hm he => h0 (he ▸ hm))
  refine ⟨b64encode (t ++ 58 :: uuid_out u), ?_, ?_⟩
  · simp only [fraiseql_encode_global_id, hcs]
  · show (decodeGlobalIdBody (b64encode (t ++ 58 :: uuid_out u))).map some = _
    rw [decodeBody_encode t u hc h0 hb]
    rfl

/-- Witness for C1 at typeName User and the UUID ...0001. -/
theorem global_id_roundtrip_witness :
    (58 : Nat) ∉ ([85, 115, 101, 114] : Str) ∧
    (∃ g, fraiseql_encode_global_id (some [85, 115, 101, 114]) (some u1) =
        .ok (some g) ∧
      fraiseql_decode_global_id (some g) = .ok (some ([85, 115, 101, 114], u1))) :=
  ⟨by decide,
   global_id_roundtrip [85, 115, 101, 114] u1 (by decide) (by decide) (by decide)⟩

/-- C2 (counterexample): `encode("a:b", uuidZero)` does not fail with
`InvalidTypeName`; it succeeds and returns the base64 global id. -/
theorem encode_colon_not_rejected :
    fraiseql_encode_global_id (some [97, 58, 98]) (some uuidZero) =
      .ok (some c2Literal) ∧
    fraiseql_encode_global_id (some [97, 58, 98]) (some uuidZero) ≠
      .error .InvalidTypeName := by
  refine ⟨rfl, ?_⟩
  intro hcontra
  rw [show fraiseql_encode_global_id (some [97, 58, 98]) (some uuidZero) =
    .ok (some c2Literal) from rfl] at hcontra
  exact Except.noConfusion hcontra

/-- C2 (amended): encode performs no typeName validation.  For every
well-formed typeName containing a colon it succeeds, and decoding the
produced global id then fails with `InvalidFormat`, because decode splits
on the first colon and the remainder still contains the separator colon
and hence is not a valid UUID. -/
theorem encode_colon_roundtrip_fails (t : Str) (u : UUID)
    (hc : (58 : Nat) ∈ t) (h0 : (0 : Nat) ∉ t) (hb : ∀ c ∈ t, c < 256) :
    ∃ g, fraiseql_encode_global_id (some t) (some u) = .ok (some g) ∧
      fraiseql_decode_global_id (some g) = .error .InvalidFormat := by
  have hcs : cString t = t := cString_of_ne_zero (fun c hm he => h0 (he ▸ hm))
  refine ⟨b64encode (t ++ 58 :: uuid_out u), ?_, ?_⟩
  · simp only [fraiseql_encode_global_id, hcs]
  · show (decodeGlobalIdBody (b64encode (t ++ 58 :: uuid_out u))).map some = _
    rw [decodeBody_encode_colon t u hc h0 hb]
    rfl

/-- Witness for the amended C2 at typeName a:b. -/
theorem encode_colon_roundtrip_fails_witness :
    (58 : Nat) ∈ ([97, 58, 98] : Str) ∧
    (∃ g, fraiseql_encode_global_id (some [97, 58, 98]) (some u1) =
        .ok (some g) ∧
      fraiseql_decode_global_id (some g) = .error .InvalidFormat) :=
  ⟨by decide,
   encode_colon_roundtrip_fails [97, 58, 98] u1 (by decide) (by decide)
     (by decide)⟩

/-- C3: a NULL first array entry followed by a non-NULL one makes the
batch resolver build the malformed literal `ARRAY[,'...']::uuid[]` (the
comma guard tests the array index, not whether an element was emitted),
so the batch query fails with an error; a NULL in a later position is
skipped as the specification describes. -/
theorem batch_null_first_entry_fails :
    fraiseql_resolve_nodes_batch .empty (fun _ => []) (some [none, some u1]) =
      .error .UpstreamUnavailable ∧
    fraiseql_resolve_nodes_batch .empty (fun _ => []) (some [some u1, none]) =
      .ok (some []) := ⟨rfl, rfl⟩

/-- C9: the index-maintenance failure is not swallowed.  The code only
ignores `SPI_execute`'s return code, but SPI raises on statement failure
and the function has no PG_TRY; since `CREATE INDEX` on the plain view
`core.v_nodes` is guaranteed to fail, every refresh over a non-empty
registry aborts with a propagated error, while the empty-registry
refresh — which runs no CREATE INDEX — completes and reports success. -/
theorem refresh_create_index_error_propagates :
    fraiseql_refresh_nodes_view_fast [reg0] ⟨true, true⟩ =
      .error .UpstreamUnavailable ∧
    fraiseql_refresh_nodes_view_fast [] ⟨true, true⟩ =
      .ok { viewDef := .empty, success := true, entityCount := 0 } :=
  ⟨rfl, rfl⟩

/-- C7: refreshing with an empty registry succeeds (no CREATE INDEX is
attempted), reports zero entities, and yields a view with zero rows of
the common shape; resolving any UUID against it returns the empty row
set (the NotFound signal), not an error. -/
theorem empty_registry_resolves_notfound (db : Database) (u : UUID) :
    ∃ res, fraiseql_refresh_nodes_view_fast [] ⟨true, true⟩ = .ok res ∧
      res.success = true ∧ res.entityCount = 0 ∧
      evalViewDef res.viewDef db = [] ∧
      fraiseql_resolve_node_fast res.viewDef db (some u) = .ok (some []) :=
  ⟨_, rfl, rfl, rfl, rfl, rfl⟩

/-- C10: a NULL argument to any of the four public operations yields a
NULL result and never an error: encode with either argument NULL, decode
of NULL, single resolution of NULL and batch resolution of a NULL
array. -/
theorem null_inputs_return_null :
    (∀ u, fraiseql_encode_global_id none u = .ok none) ∧
    (∀ t, fraiseql_encode_global_id t none = .ok none) ∧
    fraiseql_decode_global_id none = .ok none ∧
    (∀ vd db, fraiseql_resolve_node_fast vd db none = .ok none) ∧
    (∀ vd db, fraiseql_resolve_nodes_batch vd db none = .ok none) := by
  refine ⟨fun u => ?_, fun t => ?_, rfl, fun vd db => rfl, fun vd db => rfl⟩
  · cases u <;> rfl
  · cases t <;> rfl

/-- C4 (counterexample): a concrete successful batch call returns one
record for the matched row with id `u1`, and no slot of that record holds
the matched id — neither as a uuid datum nor as its text form; the fourth
slot is the constant v_nodes_batch instead. -/
theorem batch_record_id_missing :
    fraiseql_resolve_nodes_batch vd0 db0 (some [some u1]) =
      .ok (some [batchOut0]) ∧
    (∀ dOpt ∈ batchOut0, dOpt ≠ some (Datum.uuidD u1) ∧
      dOpt ≠ some (Datum.text (uuid_out u1))) := by
  refine ⟨rfl, ?_⟩
  decide

/-- C4 (amended): every record the batch resolver outputs consists of the
matched view row's `__typename`, `data` and `entity_name` followed by the
constant source marker v_nodes_batch; the `id` column the batch query
fetches is not part of the output record. -/
theorem batch_record_shape (vd : ViewDef) (db : Database)
    (arr : List (Option UUID)) (out : List OutTuple)
    (h : fraiseql_resolve_nodes_batch vd db (some arr) = .ok (some out)) :
    ∀ tp ∈ out, ∃ r ∈ evalViewDef vd db,
      tp = [some (.text r.typename), r.data.map Datum.jsonb,
        some (.text r.entity_name), some (.text vNodesBatchStr)] := by
  obtain ⟨us, hp, rfl⟩ := batch_ok_inv h
  intro tp htp
  obtain ⟨r, hrm, rfl⟩ := List.mem_map.mp htp
  have hr2 := (List.perm_insertionSort rowLe _).mem_iff.mp hrm
  exact ⟨r, List.mem_of_mem_filter hr2, rfl⟩

/-- Witness for the amended C4 at the one-row view. -/
theorem batch_record_shape_witness :
    ∃ r ∈ evalViewDef vd0 db0,
      batchOut0 = [some (.text r.typename), r.data.map Datum.jsonb,
        some (.text r.entity_name), some (.text vNodesBatchStr)] :=
  batch_record_shape vd0 db0 [some u1] [batchOut0] rfl batchOut0 (by simp)

/-- C8: on success the batch output is a sorted-by-`(__typename, id)`
sequence of row tuples, and it is a function of the set of non-NULL input
ids only: two successful calls whose inputs carry the same set of ids
produce identical output, whatever the input order. -/
theorem batch_sorted_input_order_independent (vd : ViewDef) (db : Database)
    (a1 : List (Option UUID)) (o1 : List OutTuple)
    (h1 : fraiseql_resolve_nodes_batch vd db (some a1) = .ok (some o1)) :
    (∃ rows, o1 = rows.map batchTuple ∧ List.Sorted rowLe rows) ∧
    ∀ a2 o2, fraiseql_resolve_nodes_batch vd db (some a2) = .ok (some o2) →
      (∀ u, u ∈ a1.filterMap (fun x => x) ↔ u ∈ a2.filterMap (fun x => x)) →
      o1 = o2 := by
  obtain ⟨us1, hp1, rfl⟩ := batch_ok_inv h1
  constructor
  · exact ⟨_, rfl, List.sorted_insertionSort rowLe _⟩
  · intro a2 o2 h2 hset
    obtain ⟨us2, hp2, rfl⟩ := batch_ok_inv h2
    have he1 := batch_content_ok a1 us1 hp1
    have he2 := batch_content_ok a2 us2 hp2
    subst he1
    subst he2
    have hfeq : (evalViewDef vd db).filter
        (fun r => (a1.filterMap (fun x => x)).any (fun u => r.id = some u)) =
        (evalViewDef vd db).filter
        (fun r => (a2.filterMap (fun x => x)).any (fun u => r.id = some u)) := by
      apply List.filter_congr
      intro r _
      have hiff :
          ((a1.filterMap (fun x => x)).any (fun u => r.id = some u) = true) ↔
          ((a2.filterMap (fun x => x)).any (fun u => r.id = some u) = true) := by
        simp only [List.any_eq_true]
        constructor
        · rintro ⟨u, hu, he⟩; exact ⟨u, (hset u).mp hu, he⟩
        · rintro ⟨u, hu, he⟩; exact ⟨u, (hset u).mpr hu, he⟩
      exact Bool.eq_iff_iff.mpr hiff
    rw [hfeq]

/-- Witness for C8 at the one-row view: duplicated ids and a trailing NULL
do not change the output. -/
theorem batch_sorted_witness :
    (∃ rows, [batchOut0] = rows.map batchTuple ∧ List.Sorted rowLe rows) ∧
    ∀ a2 o2, fraiseql_resolve_nodes_batch vd0 db0 (some a2) = .ok (some o2) →
      (∀ u, u ∈ ([some u1] : List (Option UUID)).filterMap (fun x => x) ↔
        u ∈ a2.filterMap (fun x => x)) →
      [batchOut0] = o2 :=
  batch_sorted_input_order_independent vd0 db0 [some u1] [batchOut0] rfl

/-- C5: for every non-NULL, well-formed input text, decode fails exactly
when the text cannot be base64-decoded, or the decoded text contains no
colon, or the substring after the first colon is not a syntactically
valid UUID; every failure carries the `InvalidFormat` kind, and on every
other input decode succeeds with a (typeName, uuid) pair. -/
theorem decode_failure_characterization (g : Str) (h0 : (0 : Nat) ∉ g) :
    (fraiseql_decode_global_id (some g) = .error .InvalidFormat ↔
      decodeFailureCondition g) ∧
    (∀ e, fraiseql_decode_global_id (some g) = .error e →
      e = .InvalidFormat) ∧
    (¬ decodeFailureCondition g →
      ∃ tn u, fraiseql_decode_global_id (some g) = .ok (some (tn, u))) := by
  have hcs : cString g = g := cString_of_ne_zero (fun c hm he => h0 (he ▸ hm))
  have hdec : fraiseql_decode_global_id (some g) =
      (decodeGlobalIdBody g).map some := rfl
  cases hb : b64decode g with
  | none =>
      have hbody : decodeGlobalIdBody g = .error .InvalidFormat := by
        simp only [decodeGlobalIdBody, hcs, hb]
      have hcond : decodeFailureCondition g := Or.inl hb
      refine ⟨⟨fun _ => hcond, fun _ => by rw [hdec, hbody]; rfl⟩, ?_, ?_⟩
      · intro e he
        rw [hdec, hbody] at he
        simp only [Except.map] at he
        injection he with h2
        exact h2.symm
      · intro hn; exact absurd hcond hn
  | some d =>
      cases hd : (cString d).dropWhile (fun c => c != 58) with
      | nil =>
          have hnocolon : (58 : Nat) ∉ cString d := by
            intro hm
            have hall := List.dropWhile_eq_nil_iff.mp hd 58 hm
            simp at hall
          have hbody : decodeGlobalIdBody g = .error .InvalidFormat := by
            simp only [decodeGlobalIdBody, hcs, hb, hd]
          have hcond : decodeFailureCondition g :=
            Or.inr ⟨d, hb, Or.inl hnocolon⟩
          refine ⟨⟨fun _ => hcond, fun _ => by rw [hdec, hbody]; rfl⟩, ?_, ?_⟩
          · intro e he
            rw [hdec, hbody] at he
            simp only [Except.map] at he
            injection he with h2
            exact h2.symm
          · intro hn; exact absurd hcond hn
      | cons a uuidStr =>
          obtain ⟨rfl, pre, hdeq, hpre⟩ := dropWhile_needle_split hd
          cases hsu : string_to_uuid uuidStr with
          | none =>
              have hbody : decodeGlobalIdBody g = .error .InvalidFormat := by
                simp only [decodeGlobalIdBody, hcs, hb, hd, hsu]
              have hcond : decodeFailureCondition g :=
                Or.inr ⟨d, hb, Or.inr ⟨pre, uuidStr, hdeq, hpre, hsu⟩⟩
              refine ⟨⟨fun _ => hcond, fun _ => by rw [hdec, hbody]; rfl⟩,
                ?_, ?_⟩
              · intro e he
                rw [hdec, hbody] at he
                simp only [Except.map] at he
                injection he with h2
                exact h2.symm
              · intro hn; exact absurd hcond hn
          | some u =>
              have hbody : decodeGlobalIdBody g =
                  .ok ((cString d).takeWhile (fun c => c != 58), u) := by
                simp only [decodeGlobalIdBody, hcs, hb, hd, hsu]
              have hncond : ¬ decodeFailureCondition g := by
                rintro (hcon | ⟨d2, hbd2, hrest⟩)
                · rw [hb] at hcon; exact Option.noConfusion hcon
                · rw [hb] at hbd2
                  obtain rfl : d2 = d := by
                    injection hbd2 with h2; exact h2.symm
                  rcases hrest with hno | ⟨pre2, suf2, heq2, hpre2, hsu2⟩
                  · exact hno (hdeq ▸ (by simp : (58 : Nat) ∈ pre ++ 58 :: uuidStr))
                  · rw [hdeq] at heq2
                    obtain ⟨-, rfl⟩ := first_needle_unique heq2 hpre hpre2
                    rw [hsu] at hsu2
                    exact Option.noConfusion hsu2
              refine ⟨⟨?_, fun hcon => absurd hcon hncond⟩, ?_, ?_⟩
              · intro habs
                rw [hdec, hbody] at habs
                simp only [Except.map] at habs
                exact Except.noConfusion habs
              · intro e he
                rw [hdec, hbody] at he
                simp only [Except.map] at he
                exact Except.noConfusion he
              · intro _
                exact ⟨_, u, by rw [hdec, hbody]; rfl⟩

/-- Witness for C5: a one-byte input is not valid base64, and decode
reports InvalidFormat for it. -/
theorem decode_failure_witness :
    fraiseql_decode_global_id (some [33]) = .error .InvalidFormat :=
  (decode_failure_characterization [33] (by decide)).1.mpr (Or.inl rfl)

theorem mkDesc_data_table {row : RegistryRow} {vt : Str}
    (h : row.v_table = some vt) :
    (mkDesc row).data_table = row.tv_table.getD vt := by
  cases htv : row.tv_table with
  | some t => simp [mkDesc, htv]
  | none => simp [mkDesc, htv, h]

/-- C6: the unified view definition the refresh synthesizes (and installs
on every completed refresh) holds a row exactly when some registry row
with a configured node view table contributes it: the row comes from that
entity's data table (`COALESCE(tv_table, v_table)`), its soft-delete
column — defaulting to the sentinel deleted_at when unset — is NULL,
and it is projected into the common shape. -/
theorem view_rows_characterization (reg : List RegistryRow)
    (db : Database) (v : ViewRow) :
    (∀ oc res, fraiseql_refresh_nodes_view_fast reg oc = .ok res →
      res.viewDef = refreshViewDef reg) ∧
    (v ∈ evalViewDef (refreshViewDef reg) db ↔
      ∃ row ∈ reg, ∃ vt, row.v_table = some vt ∧
        ∃ r ∈ db (row.tv_table.getD vt),
          r.isNull (row.soft_delete_column.getD deletedAtStr) = true ∧
          v = { id := r.pkOf row.pk_column
                typename := row.graphql_type
                entity_name := row.entity_name
                source_table := row.source_table
                data := r.data
                created_at := r.created_at
                updated_at := r.updated_at }) := by
  constructor
  · intro oc res h
    rw [fraiseql_refresh_nodes_view_fast] at h
    split at h
    · exact absurd h (by simp)
    · split at h
      · exact absurd h (by simp)
      · split at h
        · exact absurd h (by simp)
        · simp only [Except.ok.injEq] at h
          rw [← h]
  rw [refreshViewDef]
  by_cases hn : (registryRead reg).length = 0
  · rw [if_pos hn]
    have hnil : registryRead reg = [] := List.length_eq_zero.mp hn
    constructor
    · intro hmem; simp [evalViewDef] at hmem
    · rintro ⟨row, hrow, vt, hvt, -⟩
      exfalso
      have hfil : row ∈ reg.filter (fun r => r.v_table.isSome) :=
        List.mem_filter.mpr ⟨hrow, by simp [hvt]⟩
      rw [registryRead_eq_nil.mp hnil] at hfil
      simp at hfil
  · rw [if_neg hn]
    show v ∈ evalSpecs db (registryRead reg) ↔ _
    rw [mem_evalSpecs]
    constructor
    · rintro ⟨d, hd, r, hrdb, hpred, rfl⟩
      obtain ⟨row, hrow, hvsome, rfl⟩ := mem_registryRead.mp hd
      obtain ⟨vt, hvt⟩ := Option.isSome_iff_exists.mp hvsome
      refine ⟨row, hrow, vt, hvt, r, ?_, hpred, rfl⟩
      rw [← mkDesc_data_table hvt]
      exact hrdb
    · rintro ⟨row, hrow, vt, hvt, r, hrdb, hpred, rfl⟩
      refine ⟨mkDesc row, mem_registryRead.mpr ⟨row, hrow, by simp [hvt], rfl⟩,
        r, ?_, hpred, rfl⟩
      rw [mkDesc_data_table hvt]
      exact hrdb
